/-
  Verification development for the kagglefetcher repository.

  The repository has two layers:
  * `utils.py` — path helpers (`clean_path`, `ensure_dir`) built on
    `os.path.abspath`, `os.path.expanduser` and `pathlib`;
  * `core.py` — the `KaggleFetcher` orchestrator (`download`, `move`,
    `cleanup`, `fetch`) built on `pathlib` and `shutil`.

  Python strings are embedded as `List Char` (`PyStr`); `pathlib.Path`
  values are embedded structurally as `PPath` (an absolute flag plus the
  list of components, with `""` and `"."` components dropped, exactly as
  the `pathlib` constructor does).  The filesystem is an explicit state:
  an association list from paths to entry kinds, threaded through every
  operation.  Fallible external effects (`mkdir`, `shutil.rmtree`,
  `shutil.move`, `kagglehub.dataset_download`) receive their spurious
  failure outcomes from an `Oracle` record, so a theorem quantified over
  oracles covers every combination of success and failure of the
  underlying OS calls.
-/
import Mathlib

namespace KF

/-- A Python `str`, embedded as its list of characters. -/
abbrev PyStr := List Char

/-- Model of `posixpath.isabs`: a POSIX path string is absolute iff it starts
with a slash. -/
def isabs (p : PyStr) : Bool :=
  match p with
  | [] => false
  | c :: _ => decide (c = '/')

/-- Python `s.split("/")` (used by `os.path.normpath` and by
`source.split("/")` in `KaggleFetcher.__init__`): splits at every
slash, keeping empty pieces; the result is never the empty list. -/
def pySplit : PyStr → List PyStr
  | [] => [[]]
  | c :: cs =>
    if c = '/' then [] :: pySplit cs
    else
      match pySplit cs with
      | [] => [[c]]
      | h :: t => (c :: h) :: t

/-- Python `"/".join(pieces)`. -/
def pyJoinSlash : List PyStr → PyStr
  | [] => []
  | [c] => c
  | c :: cs => c ++ '/' :: pyJoinSlash cs

/-- The number of slashes `posixpath.normpath` keeps at the front:
`2` for a path that starts with exactly two slashes (POSIX
implementation-defined root), `1` for any other absolute path, `0`
otherwise. -/
def initialSlashes (p : PyStr) : Nat :=
  match p with
  | [] => 0
  | c0 :: t0 =>
    if c0 = '/' then
      match t0 with
      | [] => 1
      | c1 :: t1 =>
        if c1 = '/' then
          match t1 with
          | [] => 2
          | c2 :: _ => if c2 = '/' then 1 else 2
        else 1
    else 0

/-- The `".."` path component. -/
def dotdot : PyStr := ['.', '.']

/-- The component-processing loop of `posixpath.normpath`: `acc` is the
list of already-emitted components in reverse order.  A `".."`
component is appended when the accumulator is empty on a relative path
or already ends in `".."`; otherwise it pops the previous component;
on an absolute path a leading `".."` is dropped. -/
def normParts (root : Bool) : List PyStr → List PyStr → List PyStr
  | acc, [] => acc.reverse
  | acc, comp :: comps =>
    if comp = dotdot then
      match acc with
      | [] => if root then normParts root [] comps else normParts root [dotdot] comps
      | a :: as =>
        if a = dotdot then normParts root (dotdot :: a :: as) comps
        else normParts root as comps
    else normParts root (comp :: acc) comps

/-- Model of `posixpath.normpath`: empty input gives `"."`; otherwise split on
slashes, drop `""` and `"."` components, process `".."` components,
and rejoin behind the preserved leading slashes (result `"."` when
everything cancelled). -/
def normpath (p : PyStr) : PyStr :=
  if p = [] then ['.']
  else
    let slashes := initialSlashes p
    let comps := (pySplit p).filter (fun c => decide (c ≠ [] ∧ c ≠ ['.']))
    let comps2 := normParts (slashes != 0) [] comps
    let body := List.replicate slashes '/' ++ pyJoinSlash comps2
    if body = [] then ['.'] else body

/-- Model of `posixpath.join` restricted to two arguments, as called by
`abspath`: an absolute second argument replaces the first; otherwise
the two are joined with a single slash (none added after a trailing
slash or an empty first argument). -/
def pjoin (a b : PyStr) : PyStr :=
  if isabs b then b
  else if a = [] ∨ a.getLast? = some '/' then a ++ b
  else a ++ '/' :: b

/-- Model of `os.path.abspath`, with the process working directory `cwd` made
an explicit parameter: join onto `cwd` when relative, then
`normpath`. -/
def abspath (cwd p : PyStr) : PyStr :=
  if isabs p then normpath p else normpath (pjoin cwd p)

/-- Model of `os.path.expanduser`, with the `HOME` value and the user database
(`pwd.getpwnam`, as a partial map from user name to home directory)
made explicit parameters.  A path not starting with `'~'` is returned
unchanged; otherwise the `~` or `~user` head is replaced by the
corresponding home directory stripped of trailing slashes (an unknown
user leaves the path unchanged, an empty result becomes `"/"`). -/
def expanduser (home : PyStr) (userdb : PyStr → Option PyStr) (p : PyStr) : PyStr :=
  match p with
  | '~' :: rest =>
    let name := rest.takeWhile (fun c => c != '/')
    let tail := rest.dropWhile (fun c => c != '/')
    match (if name = [] then some home else userdb name) with
    | none => p
    | some uh =>
      let r := (uh.reverse.dropWhile (fun c => c == '/')).reverse ++ tail
      if r = [] then ['/'] else r
  | _ => p

/-- Model of `utils.clean_path`: `Path(os.path.expanduser(os.path.abspath(str(path))))`.
Note the source order: `abspath` is applied first and `expanduser`
second.  The final `Path(...)` constructor is the identity on the
already-normalized strings produced here, so the model stays at the
string level. -/
def clean_path (cwd home : PyStr) (userdb : PyStr → Option PyStr) (p : PyStr) : PyStr :=
  expanduser home userdb (abspath cwd p)

/-- A `pathlib.PurePosixPath`, embedded structurally: whether the path
is absolute, plus its components.  The `pathlib` constructor drops
`""` and `"."` segments, so a `PPath` never carries them. -/
structure PPath where
  absolute : Bool
  components : List PyStr
deriving DecidableEq, Repr

/-- Model of `pathlib`'s `/` operator for a single segment (the segments joined
in this repository are pieces of a `split("/")`, hence slash-free):
empty and `"."` segments are dropped, anything else is appended. -/
def PPath.div (p : PPath) (seg : PyStr) : PPath :=
  if seg = [] ∨ seg = ['.'] then p
  else ⟨p.absolute, p.components ++ [seg]⟩

/-- Model of `pathlib`'s `.parent`: drops the last component; the root and the
empty relative path are their own parents. -/
def PPath.parent (p : PPath) : PPath :=
  ⟨p.absolute, p.components.dropLast⟩

/-- Model of `source.split("/")[-1]` from `KaggleFetcher.__init__`. -/
def dataset_name (source : PyStr) : PyStr :=
  (pySplit source).getLastD []

/-- The state `KaggleFetcher.__init__` establishes.  Logging setup is
out of the model (it only mutates logger state). -/
structure KaggleFetcher where
  source : PyStr
  dataset_name : PyStr
  dest_base_dir : PPath
  dest_path : PPath
deriving DecidableEq, Repr

/-- Model of `KaggleFetcher.__init__(source, dest_base_dir=None, ...)`: the
short name is the text after the last slash, the base directory
defaults to `Path.cwd() / "kaggle" / "input"`, and the derived
destination is `dest_base_dir / dataset_name`. -/
def KaggleFetcher.init (source : PyStr) (dest_base_dir : Option PPath)
    (cwd : PPath) : KaggleFetcher :=
  let name := KF.dataset_name source
  let base := dest_base_dir.getD ((cwd.div "kaggle".data).div "input".data)
  { source := source, dataset_name := name,
    dest_base_dir := base, dest_path := base.div name }

/-- Kind of a filesystem entry. -/
inductive FKind where
  | file : FKind
  | dir : FKind
deriving DecidableEq, Repr

/-- The filesystem state: an association list from paths to entry
kinds (first binding wins). -/
abbrev FS := List (PPath × FKind)

/-- Kind of the entry at `p`, if any. -/
def fsKind (fs : FS) (p : PPath) : Option FKind :=
  (fs.find? (fun e => decide (e.1 = p))).map (fun e => e.2)

/-- Model of `Path.exists()`. -/
def fsExists (fs : FS) (p : PPath) : Bool :=
  fs.any (fun e => decide (e.1 = p))

/-- Predicate `compLe as bs`: the component list `as` leads (is an initial
segment of) `bs`. -/
def compLe : List PyStr → List PyStr → Bool
  | [], _ => true
  | _ :: _, [] => false
  | a :: as, b :: bs => decide (a = b) && compLe as bs

/-- Whether `q` lies in the subtree rooted at `p` (including `p` itself). -/
def isUnder (q p : PPath) : Bool :=
  decide (q.absolute = p.absolute) && compLe p.components q.components

/-- Effect of a successful recursive removal: every entry in the
subtree rooted at `p` disappears. -/
def removeTree (fs : FS) (p : PPath) : FS :=
  fs.filter (fun e => !(isUnder e.1 p))

/-- Relocation of one path from the subtree at `src` to the subtree at
`dst`. -/
def reroot (src dst q : PPath) : PPath :=
  ⟨dst.absolute, dst.components ++ q.components.drop src.components.length⟩

/-- Effect of a successful rename of the subtree at `src` to `dst`. -/
def moveTree (fs : FS) (src dst : PPath) : FS :=
  fs.map (fun e => if isUnder e.1 src then (reroot src dst e.1, e.2) else e)

/-- All prefixes of `p`, p itself included. -/
def ancestorsIncl (p : PPath) : List PPath :=
  (List.range (p.components.length + 1)).map
    (fun n => ⟨p.absolute, p.components.take n⟩)

/-- The proper prefixes of `p`. -/
def strictAncestors (p : PPath) : List PPath :=
  (List.range p.components.length).map
    (fun n => ⟨p.absolute, p.components.take n⟩)

/-- Effect of a successful `mkdir(parents=True)`: every missing
ancestor of `p` (and `p` itself) appears as a directory. -/
def addDirs (fs : FS) (p : PPath) : FS :=
  fs ++ ((ancestorsIncl p).filter (fun a => !(fsExists fs a))).map
    (fun a => (a, FKind.dir))

/-- Model of `Path.mkdir(parents=True, exist_ok=True)`: a no-op when `p` is
already a directory; `FileExistsError` when `p` is a file;
`NotADirectoryError` when some ancestor is a file; otherwise it may
fail spuriously (permissions, disk) as decided by `failFlag`, else
creates the missing directories. -/
def pathlib_mkdir (failFlag : Bool) (fs : FS) (p : PPath) : Except PyStr FS :=
  match fsKind fs p with
  | some FKind.dir => .ok fs
  | some FKind.file => .error "FileExistsError".data
  | none =>
    if (strictAncestors p).any (fun a => decide (fsKind fs a = some FKind.file)) then
      .error "NotADirectoryError".data
    else if failFlag then .error "PermissionError".data
    else .ok (addDirs fs p)

/-- Model of `shutil.rmtree(p)`: fails on a missing path and on a regular file
(`rmtree` only removes directory trees); on a directory it may fail
spuriously as decided by `failFlag`, else removes the subtree.  A
failure is modelled as leaving the state unchanged (the source leaves
it "undefined but non-corrupting"). -/
def shutil_rmtree (failFlag : Bool) (fs : FS) (p : PPath) : Except PyStr FS :=
  match fsKind fs p with
  | none => .error "FileNotFoundError".data
  | some FKind.file => .error "NotADirectoryError".data
  | some FKind.dir =>
    if failFlag then .error "PermissionError".data
    else .ok (removeTree fs p)

/-- Model of `shutil.move(src, dst)`, modelled as a rename (the cross-device
copy fallback is not distinguished; a spurious failure comes from
`failFlag`): when `dst` is an existing directory the source is moved
inside it (error if that occupied); the source must exist and the
destination's parent must be a directory. -/
def shutil_move (failFlag : Bool) (fs : FS) (src dst : PPath) : Except PyStr FS :=
  let real_dst := if fsKind fs dst = some FKind.dir
    then ⟨dst.absolute, dst.components ++ [src.components.getLastD []]⟩ else dst
  if fsKind fs dst = some FKind.dir ∧ fsExists fs real_dst = true then
    .error "Destination path already exists".data
  else if fsExists fs src = false then
    .error "FileNotFoundError".data
  else if fsKind fs real_dst.parent ≠ some FKind.dir then
    .error "FileNotFoundError".data
  else if failFlag then .error "OSError".data
  else .ok (moveTree fs src real_dst)

/-- Model of `utils.ensure_dir`: `if not p.exists(): p.mkdir(parents=True,
exist_ok=True)`; returns the path.  Note the guard is bare existence,
not `is_dir`. -/
def ensure_dir (failFlag : Bool) (fs : FS) (p : PPath) : FS × Except PyStr PPath :=
  if fsExists fs p then (fs, .ok p)
  else
    match pathlib_mkdir failFlag fs p with
    | .error m => (fs, .error m)
    | .ok fs' => (fs', .ok p)

deriving instance DecidableEq for Except

/-- The three exception classes of `exceptions.py`, with their message
payloads. -/
inductive PyErr where
  | downloadError : PyStr → PyErr
  | moveError : PyStr → PyErr
  | cleanupError : PyStr → PyErr
deriving DecidableEq, Repr

/-- Outcomes of the fallible external calls one `fetch` run can make:
the retrieval collaborator's result, and whether each OS-level call
fails spuriously. -/
structure Oracle where
  downloadResult : Except PyStr PPath
  mkdirFails : Bool
  rmtreeDestFails : Bool
  shutilMoveFails : Bool
  cleanupRmtreeFails : Bool
deriving DecidableEq, Repr

/-- Model of `KaggleFetcher.download`: wraps any retrieval failure in
`DownloadError`.  On success the cache directory exists (the spec's
retrieval-collaborator contract: "returns a local cache directory
containing the dataset"). -/
def KaggleFetcher.download (f : KaggleFetcher) (o : Oracle) (fs : FS) :
    FS × Except PyErr PPath :=
  match o.downloadResult with
  | .error m =>
    (fs, .error (.downloadError ("Failed to download ".data ++ f.source ++ ": ".data ++ m)))
  | .ok cache => (addDirs fs cache, .ok cache)

/-- Model of `KaggleFetcher.move`: `dest = dest_path or self.dest_path`; then,
inside one `try` block wrapped into `MoveError`:
`dest.parent.mkdir(parents=True, exist_ok=True)`; if `dest.exists()`
then `shutil.rmtree(dest)`; then `shutil.move(cache, dest)`; returns
`dest`. -/
def KaggleFetcher.move (f : KaggleFetcher) (o : Oracle) (fs : FS)
    (cache : PPath) (dest_path : Option PPath) : FS × Except PyErr PPath :=
  let dest := dest_path.getD f.dest_path
  match pathlib_mkdir o.mkdirFails fs dest.parent with
  | .error m => (fs, .error (.moveError ("Failed to move dataset: ".data ++ m)))
  | .ok fs1 =>
    match (if fsExists fs1 dest then shutil_rmtree o.rmtreeDestFails fs1 dest
           else .ok fs1) with
    | .error m => (fs1, .error (.moveError ("Failed to move dataset: ".data ++ m)))
    | .ok fs2 =>
      match shutil_move o.shutilMoveFails fs2 cache dest with
      | .error m => (fs2, .error (.moveError ("Failed to move dataset: ".data ++ m)))
      | .ok fs3 => (fs3, .ok dest)

/-- Model of `KaggleFetcher.cleanup`: returns `False` when the cache path does
not exist; otherwise `shutil.rmtree` it, wrapping any failure in
`CleanupError` (the message's path interpolation is elided), and
returns `True`. -/
def KaggleFetcher.cleanup (_f : KaggleFetcher) (o : Oracle) (fs : FS)
    (cache : PPath) : FS × Except PyErr Bool :=
  if fsExists fs cache then
    match shutil_rmtree o.cleanupRmtreeFails fs cache with
    | .error m => (fs, .error (.cleanupError ("Failed to cleanup: ".data ++ m)))
    | .ok fs' => (fs', .ok true)
  else (fs, .ok false)

/-- Model of `KaggleFetcher.fetch`: `download`; `move`; then, only when
`keep_cache` is false and the cache path differs from the final path,
`cleanup` with `CleanupError` caught and downgraded to a warning;
returns the final path. -/
def KaggleFetcher.fetch (f : KaggleFetcher) (o : Oracle) (fs : FS)
    (keep_cache : Bool) (dest_path : Option PPath) : FS × Except PyErr PPath :=
  match f.download o fs with
  | (fs1, .error e) => (fs1, .error e)
  | (fs1, .ok cache) =>
    match f.move o fs1 cache dest_path with
    | (fs2, .error e) => (fs2, .error e)
    | (fs2, .ok final) =>
      if keep_cache = false ∧ cache ≠ final then
        match f.cleanup o fs2 cache with
        | (fs3, .error (.cleanupError _)) => (fs3, .ok final)
        | (fs3, .error e) => (fs3, .error e)
        | (fs3, .ok _) => (fs3, .ok final)
      else (fs2, .ok final)

/-- Model of `fetch_dataset`: constructs a `KaggleFetcher` and calls `fetch()`
with default arguments. -/
def fetch_dataset (source : PyStr) (dest_dir : Option PPath) (cwd : PPath)
    (o : Oracle) (fs : FS) : FS × Except PyErr PPath :=
  (KaggleFetcher.init source dest_dir cwd).fetch o fs false none

/-! Shared concrete sample data, used by the witness theorems. -/

def pRoot : PPath := ⟨true, []⟩
def pBase : PPath := ⟨true, ["base".data]⟩
def pDest : PPath := ⟨true, ["base".data, "ds".data]⟩
def pCacheParent : PPath := ⟨true, ["cache".data]⟩
def pCache : PPath := ⟨true, ["cache".data, "ds".data]⟩
def pFile : PPath := ⟨true, ["f".data]⟩

/-- Oracle: everything succeeds. -/
def oracleOk : Oracle := ⟨.ok pCache, false, false, false, false⟩
/-- Oracle: everything succeeds except that a recursive removal
attempted by `cleanup` would fail. -/
def oracleCl : Oracle := ⟨.ok pCache, false, false, false, true⟩
/-- Oracle: the `shutil.move` call fails. -/
def oracleMv : Oracle := ⟨.ok pCache, false, false, true, false⟩

def fetcher0 : KaggleFetcher := KaggleFetcher.init "user/ds".data (some pBase) pRoot

def fsStart : FS := [(pRoot, FKind.dir)]
/-- State `fsStart` after a successful download into `pCache`. -/
def fsDl : FS := [(pRoot, FKind.dir), (pCacheParent, FKind.dir), (pCache, FKind.dir)]
/-- State `fsDl` after `move`'s `mkdir` of the destination parent. -/
def fsMkdir : FS :=
  [(pRoot, FKind.dir), (pCacheParent, FKind.dir), (pCache, FKind.dir), (pBase, FKind.dir)]
/-- State `fsDl` after a successful move of `pCache` to `pDest`. -/
def fsMoved : FS :=
  [(pRoot, FKind.dir), (pCacheParent, FKind.dir), (pDest, FKind.dir), (pBase, FKind.dir)]
/-- A state in which the destination `pDest` is already a directory. -/
def fsDirDest : FS :=
  [(pRoot, FKind.dir), (pBase, FKind.dir), (pDest, FKind.dir), (pCache, FKind.dir)]
/-- A state in which the destination `pDest` is a regular file. -/
def fsFileDest : FS :=
  [(pRoot, FKind.dir), (pBase, FKind.dir), (pDest, FKind.file), (pCache, FKind.dir)]
/-- State `fsDirDest` after the move overwrote the old destination. -/
def fsOverwritten : FS := [(pRoot, FKind.dir), (pBase, FKind.dir), (pDest, FKind.dir)]

/-! Helper lemmas about the filesystem model. -/

theorem compLe_refl (l : List PyStr) : compLe l l = true := by
  induction l with
  | nil => rfl
  | cons a as ih => simp [compLe, ih]

theorem isUnder_refl (p : PPath) : isUnder p p = true := by
  simp [isUnder, compLe_refl]

theorem fsExists_removeTree_self (fs : FS) (p : PPath) :
    fsExists (removeTree fs p) p = false := by
  apply Bool.eq_false_iff.mpr
  intro h
  rw [fsExists, List.any_eq_true] at h
  obtain ⟨x, hx, hxp⟩ := h
  rw [removeTree, List.mem_filter] at hx
  have hxp' : x.1 = p := of_decide_eq_true hxp
  rw [hxp', isUnder_refl] at hx
  simp at hx

theorem fsExists_of_fsKind (fs : FS) (p : PPath) (k : FKind)
    (h : fsKind fs p = some k) : fsExists fs p = true := by
  rw [fsKind] at h
  cases hf : fs.find? (fun e => decide (e.1 = p)) with
  | none => rw [hf] at h; simp at h
  | some a =>
    have hmem := List.mem_of_find?_eq_some hf
    have hpa := List.find?_some hf
    rw [fsExists, List.any_eq_true]
    exact ⟨a, hmem, hpa⟩

/-- The method `KaggleFetcher.cleanup` can only raise a `CleanupError`: the whole
method body is one `try` block whose handler wraps everything in
`CleanupError`. -/
theorem cleanup_error_is_cleanupError (f : KaggleFetcher) (o : Oracle)
    (fs fs' : FS) (c : PPath) (e : PyErr)
    (h : f.cleanup o fs c = (fs', Except.error e)) :
    ∃ m, e = PyErr.cleanupError m := by
  unfold KaggleFetcher.cleanup at h
  by_cases hex : fsExists fs c = true
  · simp only [hex, if_true] at h
    cases hr : shutil_rmtree o.cleanupRmtreeFails fs c with
    | error m =>
      rw [hr] at h
      simp only [Prod.mk.injEq, Except.error.injEq] at h
      exact ⟨_, h.2.symm⟩
    | ok fs2 => rw [hr] at h; simp at h
  · simp only [Bool.not_eq_true] at hex
    simp [hex] at h

/-! Theorems for the claims about `core.py`. -/

/-- C1: whenever `download` and `move` both succeed, `fetch` returns
the path produced by the move, for every oracle — in particular a
post-move cleanup failure (a `CleanupError` is the only exception
`cleanup` can raise, and `fetch` catches exactly that, logging a
warning) never makes `fetch` raise or change its result. -/
theorem fetch_swallows_cleanup_error (f : KaggleFetcher) (o : Oracle)
    (fs fs1 fs2 : FS) (keep : Bool) (dest? : Option PPath) (cache final : PPath)
    (hdl : f.download o fs = (fs1, Except.ok cache))
    (hmv : f.move o fs1 cache dest? = (fs2, Except.ok final)) :
    (f.fetch o fs keep dest?).2 = Except.ok final := by
  unfold KaggleFetcher.fetch
  rw [hdl]
  dsimp only
  rw [hmv]
  dsimp only
  by_cases hk : keep = false ∧ cache ≠ final
  · simp only [if_pos hk]
    rcases hcl : f.cleanup o fs2 cache with ⟨fs3, r⟩
    cases r with
    | ok b => simp
    | error e =>
      obtain ⟨m, rfl⟩ := cleanup_error_is_cleanupError f o fs2 fs3 cache e hcl
      simp
  · simp only [if_neg hk]

/-- C1 witness: a concrete successful run in which the oracle would
make any cleanup-time removal fail; `fetch` still returns the final
path. -/
theorem fetch_swallows_cleanup_error_witness :
    (fetcher0.fetch oracleCl fsStart false none).2 = Except.ok pDest :=
  fetch_swallows_cleanup_error fetcher0 oracleCl fsStart fsDl fsMoved false none
    pCache pDest (by decide) (by decide)

/-- C2: when `download` succeeds and `move` raises a `MoveError`,
`fetch` propagates that same error and performs nothing further: its
resulting state is exactly the state `move` left behind, so `cleanup`
was never invoked and the cache path is left un-cleaned by `fetch`. -/
theorem fetch_propagates_move_error (f : KaggleFetcher) (o : Oracle)
    (fs fs1 fs2 : FS) (keep : Bool) (dest? : Option PPath) (cache : PPath) (m : PyStr)
    (hdl : f.download o fs = (fs1, Except.ok cache))
    (hmv : f.move o fs1 cache dest? = (fs2, Except.error (PyErr.moveError m))) :
    f.fetch o fs keep dest? = (fs2, Except.error (PyErr.moveError m)) := by
  unfold KaggleFetcher.fetch
  rw [hdl]
  dsimp only
  rw [hmv]

/-- C2 witness: a concrete run in which the `shutil.move` call fails. -/
theorem fetch_propagates_move_error_witness :
    fetcher0.fetch oracleMv fsStart false none =
      (fsMkdir, Except.error (PyErr.moveError "Failed to move dataset: OSError".data)) :=
  fetch_propagates_move_error fetcher0 oracleMv fsStart fsDl fsMkdir false none
    pCache "Failed to move dataset: OSError".data (by decide) (by decide)

/-- C3 counterexample: with a regular file at the destination (all OS
calls otherwise healthy, cache present), `move` raises a `MoveError` —
`shutil.rmtree` cannot remove a regular file — so a pre-existing
destination entry that is a file does make `move` raise. -/
theorem move_fails_on_file_destination :
    fetcher0.move oracleOk fsFileDest pCache none =
      (fsFileDest,
        Except.error (PyErr.moveError "Failed to move dataset: NotADirectoryError".data)) := by
  decide

/-- C3 amended: when the pre-existing destination entry is a
directory, `move` first recursively removes it and then relocates the
cache path there, and never raises merely because the destination
pre-existed. -/
theorem move_overwrites_dir_destination (f : KaggleFetcher) (o : Oracle)
    (fs fs1 fs3 : FS) (cache : PPath) (dest? : Option PPath) (dest : PPath)
    (hd : dest?.getD f.dest_path = dest)
    (hmk : pathlib_mkdir o.mkdirFails fs dest.parent = Except.ok fs1)
    (hdir : fsKind fs1 dest = some FKind.dir)
    (hfl : o.rmtreeDestFails = false)
    (hmv : shutil_move o.shutilMoveFails (removeTree fs1 dest) cache dest = Except.ok fs3) :
    f.move o fs cache dest? = (fs3, Except.ok dest) := by
  have hex : fsExists fs1 dest = true := fsExists_of_fsKind fs1 dest _ hdir
  have hrm : shutil_rmtree o.rmtreeDestFails fs1 dest = Except.ok (removeTree fs1 dest) := by
    unfold shutil_rmtree
    rw [hdir, hfl]
    rfl
  unfold KaggleFetcher.move
  rw [hd]
  dsimp only
  rw [hmk]
  dsimp only
  rw [hex]
  simp only [if_true]
  rw [hrm]
  dsimp only
  rw [hmv]

/-- C3 witness: a concrete run overwriting a directory destination. -/
theorem move_overwrites_dir_destination_witness :
    fetcher0.move oracleOk fsDirDest pCache none = (fsOverwritten, Except.ok pDest) :=
  move_overwrites_dir_destination fetcher0 oracleOk fsDirDest fsDirDest fsOverwritten
    pCache none pDest (by decide) (by decide) (by decide) (by decide) (by decide)

/-- C4: evaluating `fetch` with `keep_cache = true` on a concrete
healthy run: the final path is returned, but the original cache path
no longer exists afterwards — `shutil.move` relocated it — against the
docstring "keep the original cache after moving". -/
theorem fetch_keep_cache_does_not_keep_cache :
    (fetcher0.fetch oracleOk fsStart true none).2 = Except.ok pDest ∧
    fsExists (fetcher0.fetch oracleOk fsStart true none).1 pCache = false := by
  decide

/-- C5: `cleanup` on a non-existing path returns `False` without
raising and leaves the state unchanged; on an existing directory whose
recursive removal succeeds it removes the whole subtree and returns
`True`, after which the path no longer exists. -/
theorem cleanup_contract (f : KaggleFetcher) (o : Oracle) (fs : FS) (p : PPath) :
    (fsExists fs p = false → f.cleanup o fs p = (fs, Except.ok false)) ∧
    (fsExists fs p = true → fsKind fs p = some FKind.dir →
      o.cleanupRmtreeFails = false →
      f.cleanup o fs p = (removeTree fs p, Except.ok true) ∧
      fsExists (removeTree fs p) p = false) := by
  constructor
  · intro h
    unfold KaggleFetcher.cleanup
    simp [h]
  · intro hex hk hfl
    refine ⟨?_, fsExists_removeTree_self fs p⟩
    unfold KaggleFetcher.cleanup
    simp only [hex, if_true]
    unfold shutil_rmtree
    rw [hk, hfl]
    rfl

/-- C5 witness: both halves at concrete states. -/
theorem cleanup_contract_witness :
    fetcher0.cleanup oracleOk fsStart pDest = (fsStart, Except.ok false) ∧
    fetcher0.cleanup oracleOk fsDl pCache = (removeTree fsDl pCache, Except.ok true) :=
  ⟨(cleanup_contract fetcher0 oracleOk fsStart pDest).1 (by decide),
   ((cleanup_contract fetcher0 oracleOk fsDl pCache).2 (by decide) (by decide) rfl).1⟩

/-- C6 counterexample: with an empty source string the derived short
name is empty, the destination path collapses to the base directory
itself, and its parent is then not the base directory. -/
theorem dest_parent_fails_for_empty_source :
    (KaggleFetcher.init [] (some pBase) pRoot).dest_path.parent ≠
      (KaggleFetcher.init [] (some pBase) pRoot).dest_base_dir := by
  decide

theorem PPath.parent_div (b : PPath) (n : PyStr) (h1 : n ≠ []) (h2 : n ≠ ['.']) :
    (b.div n).parent = b := by
  unfold PPath.div PPath.parent
  rw [if_neg (fun hc => hc.elim h1 h2)]
  cases b with
  | mk abs comps => simp

/-- C6 amended: for every source whose derived short name is neither
empty nor the single-dot component, the derived destination path's
parent is the destination base directory. -/
theorem dest_parent_eq_base_of_name_nonempty (source : PyStr) (b? : Option PPath)
    (cwd : PPath) (h1 : dataset_name source ≠ []) (h2 : dataset_name source ≠ ['.']) :
    (KaggleFetcher.init source b? cwd).dest_path.parent =
      (KaggleFetcher.init source b? cwd).dest_base_dir :=
  PPath.parent_div (KaggleFetcher.init source b? cwd).dest_base_dir
    (dataset_name source) h1 h2

/-- C6 witness. -/
theorem dest_parent_eq_base_witness :
    (KaggleFetcher.init "user/ds".data (some pBase) pRoot).dest_path.parent =
      (KaggleFetcher.init "user/ds".data (some pBase) pRoot).dest_base_dir :=
  dest_parent_eq_base_of_name_nonempty "user/ds".data (some pBase) pRoot
    (by decide) (by decide)

theorem pySplit_slash (cs : PyStr) : pySplit ('/' :: cs) = [] :: pySplit cs := by
  simp [pySplit]

theorem getLastD_pySplit_slashes (s : PyStr) (h : ∀ c ∈ s, c = '/') :
    (pySplit s).getLastD [] = [] := by
  induction s with
  | nil => rfl
  | cons c cs ih =>
    have hc : c = '/' := h c (List.mem_cons_self c cs)
    subst hc
    rw [pySplit_slash, List.getLastD_cons]
    exact ih (fun d hd => h d (List.mem_cons_of_mem _ hd))

/-- C7: constructing with an empty or separator-only source succeeds
(the constructor is total when logging is disabled), yields an empty
derived short name, and makes the derived destination path equal to
the destination base directory itself. -/
theorem init_separator_only_source (source : PyStr) (b? : Option PPath) (cwd : PPath)
    (h : ∀ c ∈ source, c = '/') :
    (KaggleFetcher.init source b? cwd).dataset_name = [] ∧
    (KaggleFetcher.init source b? cwd).dest_path =
      (KaggleFetcher.init source b? cwd).dest_base_dir := by
  have hn : dataset_name source = [] := getLastD_pySplit_slashes source h
  refine ⟨hn, ?_⟩
  show PPath.div _ (dataset_name source) = _
  rw [hn]
  simp only [PPath.div, if_pos (Or.inl rfl)]
  rfl

/-- C7 witness: the separator-only source `"//"`. -/
theorem init_separator_only_source_witness :
    (KaggleFetcher.init "//".data none pRoot).dataset_name = [] ∧
    (KaggleFetcher.init "//".data none pRoot).dest_path =
      (KaggleFetcher.init "//".data none pRoot).dest_base_dir :=
  init_separator_only_source "//".data none pRoot (by decide)

/-- C9: `ensure_dir` on a path at which any entry already exists — a
regular file included — mutates nothing, raises nothing, and returns
the given path unchanged (the `mkdir` branch runs only when nothing
exists at the path). -/
theorem ensure_dir_noop_on_existing (flag : Bool) (fs : FS) (p : PPath)
    (h : fsExists fs p = true) : ensure_dir flag fs p = (fs, Except.ok p) := by
  unfold ensure_dir
  simp [h]

/-- C9 witness: the existing entry is a regular file. -/
theorem ensure_dir_noop_on_existing_witness :
    ensure_dir false [(pFile, FKind.file)] pFile =
      ([(pFile, FKind.file)], Except.ok pFile) :=
  ensure_dir_noop_on_existing false [(pFile, FKind.file)] pFile (by decide)

/-- C8: `clean_path` applies `expanduser` to the output of `abspath`,
and `abspath` output always starts with a slash — so a leading `"~"`
in the input is never expanded: `"~/x"` normalizes to a path under the
current working directory carrying a literal `"~"` component, not to a
path under the home directory. -/
theorem clean_path_leaves_tilde_unexpanded :
    clean_path "/work".data "/home/user".data (fun _ => none) "~/x".data
      = "/work/~/x".data := by decide

/-! Lemmas about `pySplit` and `pyJoinSlash`, towards the idempotence
of `clean_path`. -/

theorem pySplit_ne_nil (s : PyStr) : pySplit s ≠ [] := by
  cases s with
  | nil => simp [pySplit]
  | cons c cs =>
    unfold pySplit
    split
    · simp
    · split <;> simp

theorem pySplit_no_slash (s : PyStr) (h : '/' ∉ s) : pySplit s = [s] := by
  induction s with
  | nil => rfl
  | cons c cs ih =>
    have hc : c ≠ '/' := fun hc => h (hc ▸ List.mem_cons_self c cs)
    have ih' := ih (fun hm => h (List.mem_cons_of_mem c hm))
    simp only [pySplit, if_neg hc, ih']

theorem pySplit_chunk (c s : PyStr) (h : '/' ∉ c) :
    pySplit (c ++ '/' :: s) = c :: pySplit s := by
  induction c with
  | nil => simp [pySplit_slash]
  | cons ch c' ih =>
    have hch : ch ≠ '/' := fun hc => h (hc ▸ List.mem_cons_self ch c')
    have ih' := ih (fun hm => h (List.mem_cons_of_mem ch hm))
    rw [List.cons_append]
    simp only [pySplit, if_neg hch, ih']

theorem pySplit_replicate (n : Nat) (s : PyStr) :
    pySplit (List.replicate n '/' ++ s) = List.replicate n [] ++ pySplit s := by
  induction n with
  | zero => simp
  | succ n ih =>
    rw [List.replicate_succ, List.cons_append, pySplit_slash, ih,
      List.replicate_succ, List.cons_append]

theorem mem_pySplit_no_slash (s x : PyStr) (hx : x ∈ pySplit s) : '/' ∉ x := by
  induction s generalizing x with
  | nil =>
    simp only [pySplit, List.mem_singleton] at hx
    subst hx; simp
  | cons c cs ih =>
    by_cases hc : c = '/'
    · subst hc
      rw [pySplit_slash] at hx
      rcases List.mem_cons.mp hx with h1 | h2
      · subst h1; simp
      · exact ih x h2
    · cases hsp : pySplit cs with
      | nil => exact absurd hsp (pySplit_ne_nil cs)
      | cons hd tl =>
        simp only [pySplit, if_neg hc, hsp] at hx
        have hhd : '/' ∉ hd := ih hd (by rw [hsp]; exact List.mem_cons_self hd tl)
        rcases List.mem_cons.mp hx with h1 | h2
        · subst h1
          intro hmm
          rcases List.mem_cons.mp hmm with h | h
          · exact hc h.symm
          · exact hhd h
        · exact ih x (by rw [hsp]; exact List.mem_cons_of_mem hd h2)

theorem pySplit_pyJoinSlash (out : List PyStr) (hne : out ≠ [])
    (hx : ∀ x ∈ out, '/' ∉ x) : pySplit (pyJoinSlash out) = out := by
  induction out with
  | nil => exact absurd rfl hne
  | cons c rest ih =>
    cases rest with
    | nil =>
      show pySplit c = [c]
      exact pySplit_no_slash c (hx c (List.mem_cons_self c []))
    | cons d ds =>
      have hj : pyJoinSlash (c :: d :: ds) = c ++ '/' :: pyJoinSlash (d :: ds) := rfl
      rw [hj, pySplit_chunk c _ (hx c (List.mem_cons_self c (d :: ds))),
        ih (by simp) (fun y hy => hx y (List.mem_cons_of_mem c hy))]

theorem pyJoinSlash_cons (c : PyStr) (rest : List PyStr) :
    ∃ t, pyJoinSlash (c :: rest) = c ++ t := by
  cases rest with
  | nil => exact ⟨[], (List.append_nil c).symm⟩
  | cons d ds => exact ⟨'/' :: pyJoinSlash (d :: ds), rfl⟩

/-! Lemmas about `normParts` and `initialSlashes`. -/

theorem normParts_app_no_dotdot (r : Bool) (l : List PyStr) (hl : dotdot ∉ l) :
    ∀ acc, normParts r acc l = acc.reverse ++ l := by
  induction l with
  | nil => intro acc; simp [normParts]
  | cons c cs ih =>
    intro acc
    have hc : c ≠ dotdot := fun h => hl (h ▸ List.mem_cons_self c cs)
    simp only [normParts, if_neg hc, ih (fun hm => hl (List.mem_cons_of_mem c hm))]
    simp

theorem normParts_no_dotdot_abs (l : List PyStr) : ∀ acc, dotdot ∉ acc →
    dotdot ∉ normParts true acc l := by
  induction l with
  | nil =>
    intro acc ha
    simp only [normParts, List.mem_reverse]
    exact ha
  | cons c cs ih =>
    intro acc ha
    simp only [normParts]
    by_cases hc : c = dotdot
    · rw [if_pos hc]
      cases acc with
      | nil =>
        dsimp only
        rw [if_pos trivial]
        exact ih [] (by simp)
      | cons a as =>
        dsimp only
        have hane : a ≠ dotdot := fun h => ha (h ▸ List.mem_cons_self a as)
        rw [if_neg hane]
        exact ih as (fun hm => ha (List.mem_cons_of_mem a hm))
    · rw [if_neg hc]
      refine ih (c :: acc) ?_
      intro hm
      rcases List.mem_cons.mp hm with h | h
      · exact hc h.symm
      · exact ha h

theorem normParts_mem (r : Bool) (l : List PyStr) : ∀ acc x, x ∈ normParts r acc l →
    x ∈ acc ∨ x ∈ l ∨ x = dotdot := by
  induction l with
  | nil =>
    intro acc x hx
    simp only [normParts, List.mem_reverse] at hx
    exact Or.inl hx
  | cons c cs ih =>
    intro acc x hx
    simp only [normParts] at hx
    by_cases hc : c = dotdot
    · rw [if_pos hc] at hx
      cases acc with
      | nil =>
        dsimp only at hx
        split at hx
        · rcases ih [] x hx with h | h | h
          · simp at h
          · exact Or.inr (Or.inl (List.mem_cons_of_mem c h))
          · exact Or.inr (Or.inr h)
        · rcases ih [dotdot] x hx with h | h | h
          · simp only [List.mem_singleton] at h
            exact Or.inr (Or.inr h)
          · exact Or.inr (Or.inl (List.mem_cons_of_mem c h))
          · exact Or.inr (Or.inr h)
      | cons a as =>
        dsimp only at hx
        split at hx
        · rcases ih (dotdot :: a :: as) x hx with h | h | h
          · rcases List.mem_cons.mp h with h1 | h1
            · exact Or.inr (Or.inr h1)
            · exact Or.inl h1
          · exact Or.inr (Or.inl (List.mem_cons_of_mem c h))
          · exact Or.inr (Or.inr h)
        · rcases ih as x hx with h | h | h
          · exact Or.inl (List.mem_cons_of_mem a h)
          · exact Or.inr (Or.inl (List.mem_cons_of_mem c h))
          · exact Or.inr (Or.inr h)
    · rw [if_neg hc] at hx
      rcases ih (c :: acc) x hx with h | h | h
      · rcases List.mem_cons.mp h with h1 | h1
        · exact Or.inr (Or.inl (h1 ▸ List.mem_cons_self c cs))
        · exact Or.inl h1
      · exact Or.inr (Or.inl (List.mem_cons_of_mem c h))
      · exact Or.inr (Or.inr h)

theorem initialSlashes_one (c : Char) (t : PyStr) (hc : c ≠ '/') :
    initialSlashes ('/' :: c :: t) = 1 := by
  simp only [initialSlashes]
  rw [if_neg hc]
  simp

theorem initialSlashes_two (c : Char) (t : PyStr) (hc : c ≠ '/') :
    initialSlashes ('/' :: '/' :: c :: t) = 2 := by
  simp only [initialSlashes]
  rw [if_neg hc]
  simp

theorem initialSlashes_abs (q : PyStr) (h : isabs q = true) :
    initialSlashes q = 1 ∨ initialSlashes q = 2 := by
  cases q with
  | nil => simp [isabs] at h
  | cons c0 t0 =>
    have hc0 : c0 = '/' := of_decide_eq_true h
    subst hc0
    cases t0 with
    | nil => exact Or.inl rfl
    | cons c1 t1 =>
      by_cases hc1 : c1 = '/'
      · subst hc1
        cases t1 with
        | nil => exact Or.inr rfl
        | cons c2 t2 =>
          by_cases hc2 : c2 = '/'
          · subst hc2
            refine Or.inl ?_
            simp [initialSlashes]
          · exact Or.inr (initialSlashes_two c2 t2 hc2)
      · exact Or.inl (initialSlashes_one c1 t1 hc1)

/-- The function `normpath` is the identity on a canonical absolute path: some
leading slashes followed by a slash-joined list of plain components
(nonempty, not `"."`, not `".."`, slash-free). -/
theorem normpath_canonical_fix (s : Nat) (out : List PyStr)
    (hs : s = 1 ∨ s = 2)
    (hel : ∀ x ∈ out, x ≠ [] ∧ x ≠ ['.'] ∧ '/' ∉ x)
    (hdd : dotdot ∉ out) :
    normpath (List.replicate s '/' ++ pyJoinSlash out)
      = List.replicate s '/' ++ pyJoinSlash out := by
  have hbody_ne : List.replicate s '/' ++ pyJoinSlash out ≠ [] := by
    rcases hs with rfl | rfl <;> simp
  have hsl : initialSlashes (List.replicate s '/' ++ pyJoinSlash out) = s := by
    rcases hs with rfl | rfl
    · cases hout : out with
      | nil => rfl
      | cons c rest =>
        obtain ⟨h1, _, h3⟩ := hel c (hout ▸ List.mem_cons_self c rest)
        obtain ⟨t, ht⟩ := pyJoinSlash_cons c rest
        rw [ht]
        cases c with
        | nil => exact absurd rfl h1
        | cons ch c'' =>
          have hch : ch ≠ '/' := fun h => h3 (h ▸ List.mem_cons_self ch c'')
          simp only [List.cons_append]
          exact initialSlashes_one ch _ hch
    · cases hout : out with
      | nil => rfl
      | cons c rest =>
        obtain ⟨h1, _, h3⟩ := hel c (hout ▸ List.mem_cons_self c rest)
        obtain ⟨t, ht⟩ := pyJoinSlash_cons c rest
        rw [ht]
        cases c with
        | nil => exact absurd rfl h1
        | cons ch c'' =>
          have hch : ch ≠ '/' := fun h => h3 (h ▸ List.mem_cons_self ch c'')
          simp only [List.cons_append]
          exact initialSlashes_two ch _ hch
  have hfilter : (pySplit (List.replicate s '/' ++ pyJoinSlash out)).filter
      (fun c => decide (c ≠ [] ∧ c ≠ ['.'])) = out := by
    rw [pySplit_replicate, List.filter_append]
    have h1 : (List.replicate s ([] : PyStr)).filter
        (fun c => decide (c ≠ [] ∧ c ≠ ['.'])) = [] := by
      apply List.filter_eq_nil_iff.mpr
      intro a ha
      rw [List.eq_of_mem_replicate ha]
      decide
    rw [h1, List.nil_append]
    by_cases hout : out = []
    · subst hout; decide
    · rw [pySplit_pyJoinSlash out hout (fun x hx => (hel x hx).2.2)]
      apply List.filter_eq_self.mpr
      intro a ha
      obtain ⟨ha1, ha2, _⟩ := hel a ha
      exact decide_eq_true ⟨ha1, ha2⟩
  have hnp : normParts
      ((initialSlashes (List.replicate s '/' ++ pyJoinSlash out)) != 0) [] out = out := by
    have h0 := normParts_app_no_dotdot
      ((initialSlashes (List.replicate s '/' ++ pyJoinSlash out)) != 0) out hdd []
    simpa using h0
  unfold normpath
  rw [if_neg hbody_ne]
  dsimp only
  rw [hfilter, hnp, hsl, if_neg hbody_ne]

/-- For an absolute input `normpath` produces exactly such a canonical
absolute path. -/
theorem normpath_abs_shape (q : PyStr) (h : isabs q = true) :
    ∃ s out, (s = 1 ∨ s = 2) ∧ (∀ x ∈ out, x ≠ [] ∧ x ≠ ['.'] ∧ '/' ∉ x) ∧
      dotdot ∉ out ∧
      normpath q = List.replicate s '/' ++ pyJoinSlash out := by
  have hq_ne : q ≠ [] := by
    cases q with
    | nil => simp [isabs] at h
    | cons a b => simp
  have hs12 := initialSlashes_abs q h
  have hs0 : (initialSlashes q != 0) = true := by
    rcases hs12 with h1 | h1 <;> rw [h1] <;> rfl
  refine ⟨initialSlashes q,
    normParts (initialSlashes q != 0) []
      ((pySplit q).filter (fun c => decide (c ≠ [] ∧ c ≠ ['.']))),
    hs12, ?_, ?_, ?_⟩
  · intro x hx
    rcases normParts_mem (initialSlashes q != 0) _ [] x hx with h1 | h1 | h1
    · simp at h1
    · have h2 := List.mem_filter.mp h1
      have h3 := of_decide_eq_true h2.2
      exact ⟨h3.1, h3.2, mem_pySplit_no_slash q x h2.1⟩
    · subst h1
      exact ⟨by decide, by decide, by decide⟩
  · rw [hs0]
    exact normParts_no_dotdot_abs _ [] (by simp)
  · unfold normpath
    rw [if_neg hq_ne]
    dsimp only
    rw [if_neg (by rcases hs12 with h1 | h1 <;> rw [h1] <;> simp)]

theorem normpath_abs_fix (q : PyStr) (h : isabs q = true) :
    normpath (normpath q) = normpath q := by
  obtain ⟨s, out, hs, hel, hdd, heq⟩ := normpath_abs_shape q h
  rw [heq]
  exact normpath_canonical_fix s out hs hel hdd

theorem isabs_normpath (q : PyStr) (h : isabs q = true) :
    isabs (normpath q) = true := by
  obtain ⟨s, out, hs, _, _, heq⟩ := normpath_abs_shape q h
  rw [heq]
  rcases hs with rfl | rfl <;> simp [List.replicate, isabs]

theorem isabs_pjoin (a b : PyStr) (ha : isabs a = true) :
    isabs (pjoin a b) = true := by
  unfold pjoin
  split
  · assumption
  · split
    · cases a with
      | nil => simp [isabs] at ha
      | cons c t => rw [List.cons_append]; exact ha
    · cases a with
      | nil => simp [isabs] at ha
      | cons c t => rw [List.cons_append]; exact ha

theorem isabs_abspath (cwd p : PyStr) (h : isabs cwd = true) :
    isabs (abspath cwd p) = true := by
  unfold abspath
  split
  next hp => exact isabs_normpath p hp
  next hp => exact isabs_normpath _ (isabs_pjoin cwd p h)

/-- The function `os.path.expanduser` leaves every path that starts with a slash
unchanged — in particular every `abspath` output. -/
theorem expanduser_abs (home : PyStr) (db : PyStr → Option PyStr) (q : PyStr)
    (h : isabs q = true) : expanduser home db q = q := by
  cases q with
  | nil => simp [isabs] at h
  | cons c t =>
    have hc : c = '/' := of_decide_eq_true h
    subst hc
    rfl

theorem abspath_abs_arg (cwd q : PyStr) (h : isabs q = true) :
    abspath cwd q = normpath q := by
  unfold abspath
  rw [if_pos h]

/-- With an absolute working directory (`os.getcwd` is always
absolute), `clean_path` coincides with `abspath`: the trailing
`expanduser` is a no-op on `abspath` output. -/
theorem clean_path_eq_abspath (cwd home : PyStr) (db : PyStr → Option PyStr)
    (p : PyStr) (h : isabs cwd = true) :
    clean_path cwd home db p = abspath cwd p :=
  expanduser_abs home db _ (isabs_abspath cwd p h)

/-- C10: `clean_path` is idempotent: for every path string `p` (and
every absolute working directory, any home directory and user
database), `clean_path (clean_path p) = clean_path p`. -/
theorem clean_path_idempotent (cwd home : PyStr) (db : PyStr → Option PyStr)
    (p : PyStr) (h : isabs cwd = true) :
    clean_path cwd home db (clean_path cwd home db p) = clean_path cwd home db p := by
  rw [clean_path_eq_abspath cwd home db p h,
    clean_path_eq_abspath cwd home db (abspath cwd p) h,
    abspath_abs_arg cwd (abspath cwd p) (isabs_abspath cwd p h)]
  unfold abspath
  split
  next hp => exact normpath_abs_fix p hp
  next hp => exact normpath_abs_fix _ (isabs_pjoin cwd p h)

/-- C10 witness. -/
theorem clean_path_idempotent_witness :
    clean_path "/w".data "/h".data (fun _ => none)
        (clean_path "/w".data "/h".data (fun _ => none) "a/./b/../c".data)
      = clean_path "/w".data "/h".data (fun _ => none) "a/./b/../c".data :=
  clean_path_idempotent "/w".data "/h".data (fun _ => none) "a/./b/../c".data
    (by decide)

example : normpath "/a/../b".data = "/b".data := by decide
example : normpath "a/..".data = ".".data := by decide
example : normpath "//a//./b".data = "//a/b".data := by decide
example : normpath "/../a".data = "/a".data := by decide
example : normpath "../a".data = "../a".data := by decide
example : clean_path "/work".data "/home/u".data (fun _ => none) "~/x".data
    = "/work/~/x".data := by decide
example : clean_path "/work".data "/home/u".data (fun _ => none) "a/../b".data
    = "/work/b".data := by decide

end KF
